import Mathlib

/-!
# Verification of the datacube-notebooks mask/index/aggregation core

Shallow embedding of the analytical core shared by the notebooks
(`Matt/chlorophyll_monitoring.ipynb`, `Matt/cloud_statistics.ipynb`,
`Eric/unhas_chlorophyll_monitoring.ipynb`): mask composition, per-time-step
good-data filtering, band scaling, normalized-difference indices, rolling
medians, and clear/valid pixel statistics.

Numeric values are modelled by `RVal`, IEEE-style floating-point values with
exact (rational) arithmetic: a value is NaN, +∞, −∞, or a finite rational.
Rounding is not modelled; all claims under study concern NaN/∞ propagation,
masking, and exact small rationals, not rounding behaviour.
-/

set_option autoImplicit false

namespace Datacube

/-! ### Kernel-computable rational arithmetic

The standard arithmetic on `ℚ` is irreducible, so closed instances of the
definitions below could not be settled by `decide`. These helpers implement
the same operations through the reducible smart constructors `mkRat` and
`Rat.divInt`; the lemmas `qadd_eq`, `qsub_eq`, `qmul_eq` and `qdiv_eq` prove
they agree with the standard operations. -/

/-- Rational addition via `mkRat`. -/
def qadd (a b : ℚ) : ℚ := mkRat (a.num * b.den + b.num * a.den) (a.den * b.den)

/-- Rational subtraction via `mkRat`. -/
def qsub (a b : ℚ) : ℚ := mkRat (a.num * b.den - b.num * a.den) (a.den * b.den)

/-- Rational multiplication via `mkRat`. -/
def qmul (a b : ℚ) : ℚ := mkRat (a.num * b.num) (a.den * b.den)

/-- Rational division via `Rat.divInt` (0 when `b = 0`, as for `ℚ`). -/
def qdiv (a b : ℚ) : ℚ := Rat.divInt (a.num * b.den) (a.den * b.num)

theorem qadd_eq (a b : ℚ) : qadd a b = a + b := by
  have ha : ((a.den : ℚ)) ≠ 0 := Nat.cast_ne_zero.mpr a.den_nz
  have hb : ((b.den : ℚ)) ≠ 0 := Nat.cast_ne_zero.mpr b.den_nz
  rw [qadd, Rat.mkRat_eq_div]
  push_cast
  conv_rhs => rw [← Rat.num_div_den a, ← Rat.num_div_den b]
  rw [div_add_div _ _ ha hb]
  ring_nf

theorem qsub_eq (a b : ℚ) : qsub a b = a - b := by
  have ha : ((a.den : ℚ)) ≠ 0 := Nat.cast_ne_zero.mpr a.den_nz
  have hb : ((b.den : ℚ)) ≠ 0 := Nat.cast_ne_zero.mpr b.den_nz
  rw [qsub, Rat.mkRat_eq_div]
  push_cast
  conv_rhs => rw [← Rat.num_div_den a, ← Rat.num_div_den b]
  rw [div_sub_div _ _ ha hb]
  ring_nf

theorem qmul_eq (a b : ℚ) : qmul a b = a * b := by
  have ha : ((a.den : ℚ)) ≠ 0 := Nat.cast_ne_zero.mpr a.den_nz
  have hb : ((b.den : ℚ)) ≠ 0 := Nat.cast_ne_zero.mpr b.den_nz
  rw [qmul, Rat.mkRat_eq_div]
  push_cast
  conv_rhs => rw [← Rat.num_div_den a, ← Rat.num_div_den b]
  rw [div_mul_div_comm]

theorem qdiv_eq (a b : ℚ) (hb : b ≠ 0) : qdiv a b = a / b := by
  have ha : ((a.den : ℚ)) ≠ 0 := Nat.cast_ne_zero.mpr a.den_nz
  have hb0 : ((b.den : ℚ)) ≠ 0 := Nat.cast_ne_zero.mpr b.den_nz
  have hbn : ((b.num : ℚ)) ≠ 0 := Int.cast_ne_zero.mpr (Rat.num_ne_zero.mpr hb)
  have hna : (a.num : ℚ) = a * a.den := (div_eq_iff ha).mp (Rat.num_div_den a)
  have hnb : (b.num : ℚ) = b * b.den := (div_eq_iff hb0).mp (Rat.num_div_den b)
  rw [qdiv, Rat.divInt_eq_div]
  push_cast
  rw [div_eq_div_iff (mul_ne_zero ha hbn) hb, hna, hnb]
  ring

/-- A floating-point value as the notebooks' array library produces them:
NaN, +∞, −∞, or a finite (exact rational) number. -/
inductive RVal where
  | nan : RVal
  | inf : RVal
  | ninf : RVal
  | fin : ℚ → RVal
deriving DecidableEq, Repr

namespace RVal

/-- IEEE addition restricted to exact values: NaN propagates, ∞ + (−∞) is NaN. -/
def add : RVal → RVal → RVal
  | nan, _ => nan
  | _, nan => nan
  | inf, ninf => nan
  | ninf, inf => nan
  | inf, _ => inf
  | _, inf => inf
  | ninf, _ => ninf
  | _, ninf => ninf
  | fin a, fin b => fin (qadd a b)

/-- IEEE subtraction: NaN propagates, ∞ − ∞ is NaN. -/
def sub : RVal → RVal → RVal
  | nan, _ => nan
  | _, nan => nan
  | inf, inf => nan
  | ninf, ninf => nan
  | inf, _ => inf
  | ninf, _ => ninf
  | _, inf => ninf
  | _, ninf => inf
  | fin a, fin b => fin (qsub a b)

/-- IEEE multiplication: NaN propagates, ∞ × 0 is NaN, signs multiply. -/
def mul : RVal → RVal → RVal
  | nan, _ => nan
  | _, nan => nan
  | inf, inf => inf
  | inf, ninf => ninf
  | ninf, inf => ninf
  | ninf, ninf => inf
  | inf, fin a => if 0 < a then inf else if a < 0 then ninf else nan
  | fin a, inf => if 0 < a then inf else if a < 0 then ninf else nan
  | ninf, fin a => if 0 < a then ninf else if a < 0 then inf else nan
  | fin a, ninf => if 0 < a then ninf else if a < 0 then inf else nan
  | fin a, fin b => fin (qmul a b)

/-- IEEE division on exact values: NaN propagates, ∞/∞ is NaN, x/±∞ is 0,
x/0 is ±∞ for x ≠ 0 and NaN for x = 0 (the zero here is +0). -/
def div : RVal → RVal → RVal
  | nan, _ => nan
  | _, nan => nan
  | inf, inf => nan
  | inf, ninf => nan
  | ninf, inf => nan
  | ninf, ninf => nan
  | inf, fin a => if a < 0 then ninf else inf
  | ninf, fin a => if a < 0 then inf else ninf
  | fin _, inf => fin 0
  | fin _, ninf => fin 0
  | fin a, fin b =>
      if b = 0 then (if a = 0 then nan else if 0 < a then inf else ninf)
      else fin (qdiv a b)

/-- IEEE `≤` as a boolean: any comparison with NaN is false. -/
def rLe : RVal → RVal → Bool
  | nan, _ => false
  | _, nan => false
  | ninf, _ => true
  | _, ninf => false
  | inf, inf => true
  | inf, fin _ => false
  | fin _, inf => true
  | fin a, fin b => decide (a ≤ b)

/-- IEEE `<` as a boolean: any comparison with NaN is false. -/
def rLt : RVal → RVal → Bool
  | nan, _ => false
  | _, nan => false
  | ninf, ninf => false
  | ninf, _ => true
  | _, ninf => false
  | inf, _ => false
  | fin _, inf => true
  | fin a, fin b => decide (a < b)

/-- IEEE `>` as a boolean. -/
def rGt (a b : RVal) : Bool := rLt b a

/-- IEEE `≥` as a boolean. -/
def rGe (a b : RVal) : Bool := rLe b a

/-- NaN test. -/
def isNaN : RVal → Bool
  | nan => true
  | _ => false

theorem isNaN_iff (x : RVal) : isNaN x = true ↔ x = nan := by
  cases x <;> simp [isNaN]

theorem add_nan_left (x : RVal) : add nan x = nan := by cases x <;> rfl

theorem add_nan_right (x : RVal) : add x nan = nan := by cases x <;> rfl

theorem sub_nan_left (x : RVal) : sub nan x = nan := by cases x <;> rfl

theorem sub_nan_right (x : RVal) : sub x nan = nan := by cases x <;> rfl

theorem mul_nan_left (x : RVal) : mul nan x = nan := by cases x <;> rfl

theorem mul_nan_right (x : RVal) : mul x nan = nan := by cases x <;> rfl

theorem div_nan_left (x : RVal) : div nan x = nan := by cases x <;> rfl

theorem div_nan_right (x : RVal) : div x nan = nan := by cases x <;> rfl

end RVal

/-! ## TimeStepFilter
Embedding of the notebook cells (both chlorophyll notebooks):
`data_perc = good_pixel_mask.sum(axis=[1,2]) / (shape[1]*shape[2])`,
`keep = (data_perc >= min_gooddata)`, `ds_s2.sel(time=keep)`,
`good_pixel_mask.sel(time=keep)`.
A {y,x} mask image is a list of rows of booleans; a {time,y,x} mask is a list
of images, one per time step. -/

/-- Number of `true` entries in one mask row. -/
def countTrue (row : List Bool) : Nat := (row.filter id).length

/-- Number of `true` pixels in one {y,x} mask image: `mask[t].sum()`. -/
def countTrue2 (img : List (List Bool)) : Nat := (img.map countTrue).sum

/-- `data_perc = good_pixel_mask.sum(axis=[1,2]) / (shape[1]*shape[2])`:
per time step, the true-pixel count divided by the total pixel count, as a
floating-point division of the two integer quantities. -/
def data_perc (mask : List (List (List Bool))) (h w : Nat) : List RVal :=
  mask.map fun img => RVal.div (RVal.fin (countTrue2 img)) (RVal.fin ((h * w : Nat) : ℚ))

/-- `keep = (data_perc >= min_gooddata)`: the boolean keep-vector. -/
def keepVec (mask : List (List (List Bool))) (h w : Nat) (τ : ℚ) : List Bool :=
  (data_perc mask h w).map fun p => RVal.rGe p (RVal.fin τ)

/-- `xs.sel(time=keep)`: positional boolean selection along the time axis,
preserving order. -/
def sel {α : Type _} : List α → List Bool → List α
  | _, [] => []
  | [], _ => []
  | x :: xs, b :: bs => if b then x :: sel xs bs else sel xs bs

/-! ## ScaledMaskedArray
Embedding of
`ds_s2[band] = ds_s2[band].where(valid_mask[band] & good_pixel_mask) * scale + offset`. -/

/-- `x.where(cond)`: keep the value where the condition holds, else NaN. -/
def whereRV (x : RVal) (cond : Bool) : RVal := if cond then x else RVal.nan

/-- One pixel of `band.where(valid_mask & good_pixel_mask) * scale + offset`. -/
def cleanPixel (x : RVal) (valid good : Bool) (scale offset : ℚ) : RVal :=
  RVal.add (RVal.mul (whereRV x (valid && good)) (RVal.fin scale)) (RVal.fin offset)

/-! ## IndexCalculator
Embedding of `MNDWI = (green - swir_2) / (green + swir_2)` and
`NDCI = (red_edge_1 - red) / (red_edge_1 + red)`. -/

/-- `(A - B) / (A + B)` at one pixel, with IEEE semantics. -/
def normDiff (a b : RVal) : RVal := RVal.div (RVal.sub a b) (RVal.add a b)

/-- Elementwise normalized difference of two (flattened) bands. -/
def normDiffImage (a b : List RVal) : List RVal := List.zipWith normDiff a b

/-! ## CategoricalQualityMask -/

/-- Error raised when an acceptable-category label is not in the dataset
enumeration (spec §7 error taxonomy). -/
inductive MaskError where
  | unknownCategoryError : String → MaskError
deriving DecidableEq, Repr

/-- Modelled from the spec: `enum_to_bool` is imported from the external
`odc.algo` library, whose source is not part of this repository; only its
call sites (`enum_to_bool(ds_s2['mask'], good_pixel_flags)`,
`enum_to_bool(data[QA_layer], clear_pixel_flags)`) are. Per spec §4.2 the
output mask is true iff the pixel quality category is in the acceptable set,
and construction fails with `UnknownCategoryError`, naming the offending
label, when an acceptable label is not part of the dataset enumeration. -/
def enum_to_bool (enumeration : List String) (qual : List (List (List String)))
    (accept : List String) : Except MaskError (List (List (List Bool))) :=
  match accept.find? fun c => !enumeration.contains c with
  | some c => .error (.unknownCategoryError c)
  | none =>
      .ok (qual.map fun img => img.map fun row => row.map fun code => accept.contains code)

/-! ## VectorRasterMask -/

/-- Error raised when the polygon selection is empty (spec §7 error taxonomy). -/
inductive GeomError where
  | emptyGeometryError : GeomError
deriving DecidableEq, Repr

/-- A simple polygon as a closed ring of rational vertices. -/
def Polygon : Type := List (ℚ × ℚ)

/-- Grid geometry of the raster: shape plus the affine transform from pixel
indices to world coordinates (`x0`/`y0` are the outer corner of pixel (0,0),
`dx`/`dy` the signed pixel sizes). -/
structure GridGeom where
  height : Nat
  width : Nat
  x0 : ℚ
  dx : ℚ
  y0 : ℚ
  dy : ℚ
deriving Repr

/-- Even-odd (crossing-number) containment test of a point in a polygon. -/
def pointInPoly (poly : Polygon) (px py : ℚ) : Bool :=
  (List.zip poly (poly.rotateLeft 1)).foldl
    (fun acc e =>
      let ((x1, y1), (x2, y2)) := e
      if (decide (py < y1) != decide (py < y2)) &&
          decide (px < qadd x1 (qdiv (qmul (qsub py y1) (qsub x2 x1)) (qsub y2 y1)))
      then !acc else acc)
    false

/-- World coordinates of the center of pixel (row `i`, column `j`). -/
def pixelCenter (g : GridGeom) (i j : Nat) : ℚ × ℚ :=
  (qadd g.x0 (qmul (qadd (j : ℚ) (mkRat 1 2)) g.dx),
   qadd g.y0 (qmul (qadd (i : ℚ) (mkRat 1 2)) g.dy))

/-- Modelled from the spec: `rasterio.features.rasterize` is an external
library, not part of this repository; only its call site
(`rasterio.features.rasterize(((feature['geometry'], 1) for ...), out_shape=...,
transform=ds_s2.affine)`) is. Per spec §4.4 the output is a boolean mask over
{y,x} with the grid shape, true where a pixel falls inside some polygon under
the adopted rasterization rule (here: pixel-center containment), and an empty
polygon set raises `EmptyGeometryError` instead of returning a mask. -/
def rasterize (polys : List Polygon) (g : GridGeom) :
    Except GeomError (List (List Bool)) :=
  if polys.isEmpty then .error .emptyGeometryError
  else
    .ok ((List.range g.height).map fun i =>
      (List.range g.width).map fun j =>
        polys.any fun p => pointInPoly p (pixelCenter g i j).1 (pixelCenter g i j).2)

/-! ## TemporalAggregator -/

/-- The finite (non-NaN, non-infinite) values of a list, in order. -/
def nonMissing (l : List RVal) : List ℚ :=
  l.filterMap fun x => match x with
    | RVal.fin q => some q
    | _ => none

/-- Median of a finite list of rationals: middle element of the sorted list,
or the mean of the two middle elements when the length is even. -/
def medianQ (l : List ℚ) : ℚ :=
  let s := l.insertionSort (· ≤ ·)
  if l.length % 2 = 1 then s.getD (l.length / 2) 0
  else qdiv (qadd (s.getD (l.length / 2 - 1) 0) (s.getD (l.length / 2) 0)) 2

/-- The centered window of width `w` around position `i`, clipped to the
series bounds (the partial-window behaviour of a centered rolling window). -/
def windowAt (xs : List RVal) (w i : Nat) : List RVal :=
  (xs.take (i + w / 2 + 1)).drop (i - w / 2)

/-- `series.rolling(time=w, center=True, min_periods=m).median(skipna=True)`:
at each position, the median of the non-missing samples in the centered
window, provided at least `m` (and at least one) are present, else NaN. -/
def rollingMedian (xs : List RVal) (w m : Nat) : List RVal :=
  (List.range xs.length).map fun i =>
    let avail := nonMissing (windowAt xs w i)
    if max m 1 ≤ avail.length then RVal.fin (medianQ avail) else RVal.nan

/-- `arr.count(...)`: the number of non-NaN entries. -/
def countRV (l : List RVal) : Nat := (l.filter fun x => !RVal.isNaN x).length

/-- `arr.mean(skipna=True)`: NaN-skipping mean; NaN when every entry is NaN. -/
def nanmean (l : List RVal) : RVal :=
  let v := l.filter fun x => !RVal.isNaN x
  if v.length = 0 then RVal.nan
  else RVal.div (v.foldl RVal.add (RVal.fin 0)) (RVal.fin v.length)

/-! ### Water selection and average NDCI
Embedding of `ds_s2_water = ds_s2.where(ds_s2.MNDWI > 0.0)`,
`ds_s2_watercount = ds_s2_water.MNDWI.count(dim=["x","y"])` and
`average_ndci = ds_s2_water.NDCI.mean(dim=["x","y"], skipna=True)`,
at one time step, over the flattened {y,x} pixel list. -/

/-- The MNDWI image after `where(MNDWI > 0.0)`. -/
def waterMNDWI (mndwi : List RVal) : List RVal :=
  mndwi.map fun x => whereRV x (RVal.rGt x (RVal.fin 0))

/-- The NDCI image after `where(MNDWI > 0.0)` (the dataset-level `where`
masks every variable by the same condition). -/
def waterNDCI (mndwi ndci : List RVal) : List RVal :=
  List.zipWith (fun m n => whereRV n (RVal.rGt m (RVal.fin 0))) mndwi ndci

/-- `ds_s2_watercount` at one time step. -/
def watercount (mndwi : List RVal) : Nat := countRV (waterMNDWI mndwi)

/-- `average_ndci` at one time step. -/
def average_ndci (mndwi ndci : List RVal) : RVal := nanmean (waterNDCI mndwi ndci)

/-! ### Clear/valid pixel statistics (cloud_statistics notebook)
Embedding of `valid_sum = valid_mask.sum(dim='time')`,
`clear_sum = clear_mask.sum(dim='time')`,
`percentage_clear = 100.0 * clear_sum / valid_sum`,
`percentage_clear = percentage_clear.where(percentage_clear <= 100.0)`,
at one pixel. -/

/-- `100.0 * clear_sum / valid_sum` before the guard. -/
def percentage_clear_raw (clearSum validSum : Nat) : RVal :=
  RVal.div (RVal.mul (RVal.fin 100) (RVal.fin clearSum)) (RVal.fin validSum)

/-- `percentage_clear.where(percentage_clear <= 100.0)`: the guarded value. -/
def percentage_clear (clearSum validSum : Nat) : RVal :=
  whereRV (percentage_clear_raw clearSum validSum)
    (RVal.rLe (percentage_clear_raw clearSum validSum) (RVal.fin 100))

/-- The per-pixel statistic from the two boolean time series at that pixel:
time-sums of the masks, then the guarded percentage. -/
def percentageClearPixel (clear valid : List Bool) : RVal :=
  percentage_clear (countTrue clear) (countTrue valid)

/-! ## Concrete instances used by the end-to-end scenarios -/

/-- A 1×10 image with 9 of 10 pixels good. -/
def exampleImg9 : List (List Bool) :=
  [[true, true, true, true, true, true, true, true, true, false]]

/-- A 1×10 image with 1 of 10 pixels good. -/
def exampleImg1 : List (List Bool) :=
  [[true, false, false, false, false, false, false, false, false, false]]

/-- The 4-time-step quality mask of the TimeStepFilter scenario:
good fractions 0.9, 0.1, 0.9, 0.1. -/
def exampleMask4 : List (List (List Bool)) :=
  [exampleImg9, exampleImg1, exampleImg9, exampleImg1]

/-- A square polygon covering the top-left quadrant of a 4×4 unit grid. -/
def examplePoly : Polygon := [(0, 0), (2, 0), (2, 2), (0, 2)]

/-- A 4×4 unit grid at the origin. -/
def exampleGrid : GridGeom :=
  { height := 4, width := 4, x0 := 0, dx := 1, y0 := 0, dy := 1 }

/-! ## Shared lemmas about the embedding -/

theorem RVal.add_fin (a b : ℚ) : RVal.add (RVal.fin a) (RVal.fin b) = RVal.fin (a + b) := by
  simp [RVal.add, qadd_eq]

theorem RVal.sub_fin (a b : ℚ) : RVal.sub (RVal.fin a) (RVal.fin b) = RVal.fin (a - b) := by
  simp [RVal.sub, qsub_eq]

theorem RVal.mul_fin (a b : ℚ) : RVal.mul (RVal.fin a) (RVal.fin b) = RVal.fin (a * b) := by
  simp [RVal.mul, qmul_eq]

theorem RVal.div_fin (a b : ℚ) (hb : b ≠ 0) :
    RVal.div (RVal.fin a) (RVal.fin b) = RVal.fin (a / b) := by
  simp [RVal.div, hb, qdiv_eq a b hb]

theorem RVal.rGe_fin (a b : ℚ) : RVal.rGe (RVal.fin a) (RVal.fin b) = decide (b ≤ a) := rfl

theorem RVal.rLe_fin (a b : ℚ) : RVal.rLe (RVal.fin a) (RVal.fin b) = decide (a ≤ b) := rfl

theorem RVal.rGt_fin (a b : ℚ) : RVal.rGt (RVal.fin a) (RVal.fin b) = decide (b < a) := rfl

theorem getD_map {α β : Type _} (f : α → β) (d : α) :
    ∀ (xs : List α) (i : Nat), (xs.map f).getD i (f d) = f (xs.getD i d)
  | [], _ => rfl
  | _ :: _, 0 => rfl
  | _ :: xs, i + 1 => getD_map f d xs i

theorem getD_zipWith {α β γ : Type _} (f : α → β → γ) (dA : α) (dB : β) :
    ∀ (xs : List α) (ys : List β) (i : Nat), i < xs.length → xs.length = ys.length →
      (List.zipWith f xs ys).getD i (f dA dB) = f (xs.getD i dA) (ys.getD i dB)
  | [], _, _, hi, _ => absurd hi (by simp)
  | _ :: _, [], _, _, hlen => absurd hlen (by simp)
  | _ :: _, _ :: _, 0, _, _ => rfl
  | _ :: xs, _ :: ys, i + 1, hi, hlen =>
      getD_zipWith f dA dB xs ys i (Nat.lt_of_succ_lt_succ hi) (Nat.succ_injective hlen)

/-! ## Claim theorems -/

/-- C2, counterexample: the cleaned values A = 1 and B = −1 sum to 0 exactly,
yet the normalized difference `(A − B)/(A + B) = 2/0` is +∞, not NaN — the
claim that the result is NaN at every position where `A + B` is exactly 0 is
false. -/
theorem C2_counterexample :
    RVal.add (RVal.fin 1) (RVal.fin (-1)) = RVal.fin 0 ∧
    normDiff (RVal.fin 1) (RVal.fin (-1)) = RVal.inf ∧
    RVal.inf ≠ RVal.nan := by
  refine ⟨?_, ?_, by decide⟩ <;> decide

/-- C2 (amended): IndexCalculator computes `(A − B)/(A + B)` element-wise;
at a position where `A + B = 0` exactly, the result is NaN when `A − B = 0`
as well (in particular at A = B = 0) and ±∞ (not 0 and not NaN) otherwise;
at a position where either input is NaN, the result is NaN. -/
theorem C2_indexCalculator (a b : ℚ) (x y : RVal) (A B : List RVal) (i : Nat) :
    (a + b ≠ 0 → normDiff (RVal.fin a) (RVal.fin b) = RVal.fin ((a - b) / (a + b))) ∧
    (a + b = 0 → a - b = 0 → normDiff (RVal.fin a) (RVal.fin b) = RVal.nan) ∧
    (a + b = 0 → a - b ≠ 0 →
      normDiff (RVal.fin a) (RVal.fin b) = RVal.inf ∨
      normDiff (RVal.fin a) (RVal.fin b) = RVal.ninf) ∧
    (x = RVal.nan → normDiff x y = RVal.nan) ∧
    (y = RVal.nan → normDiff x y = RVal.nan) ∧
    (i < A.length → A.length = B.length →
      (normDiffImage A B).getD i RVal.nan =
        normDiff (A.getD i RVal.nan) (B.getD i RVal.nan)) := by
  refine ⟨?_, ?_, ?_, ?_, ?_, ?_⟩
  · intro h
    rw [normDiff, RVal.sub_fin, RVal.add_fin, RVal.div_fin _ _ h]
  · intro h1 h2
    rw [normDiff, RVal.sub_fin, RVal.add_fin, h1, h2]
    simp [RVal.div]
  · intro h1 h2
    rw [normDiff, RVal.sub_fin, RVal.add_fin, h1]
    rcases lt_or_gt_of_ne h2 with h | h
    · right
      simp [RVal.div, h2, not_lt.mpr (le_of_lt h)]
    · left
      simp [RVal.div, h2, h]
  · rintro rfl
    cases y <;> rfl
  · rintro rfl
    cases x <;> rfl
  · intro hi hlen
    exact getD_zipWith normDiff RVal.nan RVal.nan A B i hi hlen

/-- C2, witness: the amended statement at A = 3, B = 1 (value 1/2), at
A = B = 0 (NaN), and at a NaN input. -/
theorem C2_indexCalculator_witness :
    normDiff (RVal.fin 3) (RVal.fin 1) = RVal.fin (((3 : ℚ) - 1) / (3 + 1)) ∧
    normDiff (RVal.fin 0) (RVal.fin 0) = RVal.nan ∧
    normDiff RVal.nan (RVal.fin 1) = RVal.nan ∧
    (normDiffImage [RVal.fin 3] [RVal.fin 1]).getD 0 RVal.nan =
      normDiff ([RVal.fin 3].getD 0 RVal.nan) ([RVal.fin 1].getD 0 RVal.nan) :=
  ⟨(C2_indexCalculator 3 1 RVal.nan RVal.nan [] [] 0).1 (by norm_num),
   (C2_indexCalculator 0 0 RVal.nan RVal.nan [] [] 0).2.1 (by norm_num) (by norm_num),
   (C2_indexCalculator 3 1 RVal.nan (RVal.fin 1) [] [] 0).2.2.2.1 rfl,
   (C2_indexCalculator 3 1 RVal.nan RVal.nan [RVal.fin 3] [RVal.fin 1] 0).2.2.2.2.2
     (by decide) (by decide)⟩

/-- C3: ScaledMaskedArray cleans each pixel to `value × scale + offset`
where both the validity mask and the quality mask are true, and to NaN where
either is false — independently of the stored value, so no fill value is
ever scaled into the output; in particular raw value 10000 with scale 0.0001
and offset 0 yields 1.0 masked-in and NaN masked-out. -/
theorem C3_scaledMaskedArray (v scale offset : ℚ) (x : RVal) (valid good : Bool) :
    ((valid && good) = true →
      cleanPixel (RVal.fin v) valid good scale offset = RVal.fin (v * scale + offset)) ∧
    ((valid && good) = false →
      cleanPixel x valid good scale offset = RVal.nan) ∧
    cleanPixel (RVal.fin 10000) true true (1 / 10000) 0 = RVal.fin 1 ∧
    cleanPixel (RVal.fin 10000) true false (1 / 10000) 0 = RVal.nan ∧
    cleanPixel (RVal.fin 10000) false true (1 / 10000) 0 = RVal.nan := by
  have hin : ∀ u sc off : ℚ,
      cleanPixel (RVal.fin u) true true sc off = RVal.fin (u * sc + off) := by
    intro u sc off
    rw [cleanPixel]
    show RVal.add (RVal.mul (RVal.fin u) (RVal.fin sc)) (RVal.fin off) = _
    rw [RVal.mul_fin, RVal.add_fin]
  have hout : ∀ (z : RVal) (b1 b2 : Bool) (sc off : ℚ), (b1 && b2) = false →
      cleanPixel z b1 b2 sc off = RVal.nan := by
    intro z b1 b2 sc off hb
    rw [cleanPixel, hb]
    show RVal.add (RVal.mul RVal.nan (RVal.fin sc)) (RVal.fin off) = RVal.nan
    rw [RVal.mul_nan_left, RVal.add_nan_left]
  refine ⟨?_, hout x valid good scale offset, ?_, hout _ _ _ _ _ rfl, hout _ _ _ _ _ rfl⟩
  · intro hb
    rcases Bool.and_eq_true_iff.mp hb with ⟨h1, h2⟩
    subst h1; subst h2
    exact hin v scale offset
  · rw [hin]
    norm_num

/-- C3, witness: the scenario values — raw 10000, scale 0.0001, offset 0,
masked-in gives 1.0; masked-out gives NaN whatever the stored value. -/
theorem C3_scaledMaskedArray_witness :
    cleanPixel (RVal.fin 10000) true true (1 / 10000) 0 = RVal.fin (10000 * (1 / 10000) + 0) ∧
    cleanPixel (RVal.fin 10000) true false (1 / 10000) 0 = RVal.nan :=
  ⟨(C3_scaledMaskedArray 10000 (1 / 10000) 0 RVal.nan true true).1 rfl,
   (C3_scaledMaskedArray 10000 (1 / 10000) 0 (RVal.fin 10000) true false).2.1 rfl⟩

/-- Bounded version of `getD_map`: inside the bounds, `getD` of a mapped list
with any default applies the function to the element. -/
theorem getD_map_bounded {α β : Type _} (f : α → β) (d : α) (e : β) (xs : List α) (j : Nat)
    (h : j < xs.length) : (xs.map f).getD j e = f (xs.getD j d) := by
  rw [List.getD_eq_getElem _ _ (by simpa using h), List.getD_eq_getElem _ _ h,
    List.getElem_map]

/-- `getD_map` with the mapped default supplied up to an equation. -/
theorem getD_map' {α β : Type _} (f : α → β) (d : α) (e : β) (he : f d = e) :
    ∀ (xs : List α) (i : Nat), (xs.map f).getD i e = f (xs.getD i d) := by
  intro xs i
  rw [← he]
  exact getD_map f d xs i

/-- The pixel at (t, i, j) of the categorical membership mask is the
membership test of the pixel quality category, for j inside the row. -/
theorem enumMask_getD (S : List String) (qual : List (List (List String)))
    (t i j : Nat) (hj : j < ((qual.getD t []).getD i []).length) :
    (((qual.map fun img => img.map fun row => row.map fun code => S.contains code).getD
        t []).getD i []).getD j false =
      S.contains (((qual.getD t []).getD i []).getD j "") := by
  rw [getD_map'
    (fun img : List (List String) => img.map fun row => row.map fun code => S.contains code)
    [] [] rfl qual t]
  rw [getD_map' (fun row : List String => row.map fun code => S.contains code) [] [] rfl _ i]
  rw [getD_map_bounded (fun code => S.contains code) "" false _ j hj]

/-- C4: CategoricalQualityMask fails with `UnknownCategoryError`, naming an
offending label, whenever some requested acceptable label is not in the
dataset enumeration; otherwise it succeeds and the mask is true at exactly
the pixels whose quality category is in the acceptable set. -/
theorem C4_categoricalQualityMask (enumeration accept : List String)
    (qual : List (List (List String))) (t i j : Nat) :
    ((∃ c ∈ accept, c ∉ enumeration) →
      ∃ c, c ∈ accept ∧ c ∉ enumeration ∧
        enum_to_bool enumeration qual accept =
          Except.error (MaskError.unknownCategoryError c)) ∧
    ((∀ c ∈ accept, c ∈ enumeration) →
      ∃ m, enum_to_bool enumeration qual accept = Except.ok m ∧
        m.length = qual.length ∧
        (j < ((qual.getD t []).getD i []).length →
          (((m.getD t []).getD i []).getD j false = true ↔
            ((qual.getD t []).getD i []).getD j "" ∈ accept))) := by
  constructor
  · rintro ⟨c, hc, hnc⟩
    have hsome : (accept.find? fun c => !enumeration.contains c).isSome := by
      rw [List.find?_isSome]
      exact ⟨c, hc, by simpa using hnc⟩
    rcases Option.isSome_iff_exists.mp hsome with ⟨c0, hc0⟩
    refine ⟨c0, List.mem_of_find?_eq_some hc0, by simpa using List.find?_some hc0, ?_⟩
    rw [enum_to_bool, hc0]
  · intro hall
    have hnone : (accept.find? fun c => !enumeration.contains c) = none := by
      rw [List.find?_eq_none]
      intro c hc
      simpa using hall c hc
    refine ⟨_, by rw [enum_to_bool, hnone], by simp, ?_⟩
    intro hj
    rw [enumMask_getD accept qual t i j hj]
    simp [List.contains]

/-- C4, witness: with enumeration {water, cloud}, requesting the unknown
label "wtaer" fails with `UnknownCategoryError`, while requesting {water}
yields the membership mask on a 1×1×2 quality cube. -/
theorem C4_categoricalQualityMask_witness :
    (∃ c, c ∈ ["wtaer"] ∧ c ∉ ["water", "cloud"] ∧
      enum_to_bool ["water", "cloud"] [[["water", "cloud"]]] ["wtaer"] =
        Except.error (MaskError.unknownCategoryError c)) ∧
    (∃ m, enum_to_bool ["water", "cloud"] [[["water", "cloud"]]] ["water"] = Except.ok m ∧
      m.length = 1 ∧
      (((m.getD 0 []).getD 0 []).getD 0 false = true ↔
        (([[["water", "cloud"]]].getD 0 []).getD 0 []).getD 0 "" ∈ ["water"])) :=
  ⟨(C4_categoricalQualityMask ["water", "cloud"] ["wtaer"] [[["water", "cloud"]]] 0 0 0).1
      ⟨"wtaer", by decide, by decide⟩,
   by
    rcases (C4_categoricalQualityMask ["water", "cloud"] ["water"]
        [[["water", "cloud"]]] 0 0 0).2 (by decide) with ⟨m, hm, hlen, hmem⟩
    exact ⟨m, hm, hlen, hmem (by decide)⟩⟩

/-- C8: CategoricalQualityMask is monotone in the acceptable-category set:
whenever both mask constructions succeed and S₁ ⊆ S₂, every pixel position
that is true in the mask for S₁ is true in the mask for S₂. -/
theorem C8_maskMonotone (enumeration : List String) (qual : List (List (List String)))
    (S1 S2 : List String) (m1 m2 : List (List (List Bool)))
    (hsub : ∀ c ∈ S1, c ∈ S2)
    (h1 : enum_to_bool enumeration qual S1 = Except.ok m1)
    (h2 : enum_to_bool enumeration qual S2 = Except.ok m2)
    (t i j : Nat) (hj : j < ((qual.getD t []).getD i []).length) :
    ((m1.getD t []).getD i []).getD j false = true →
    ((m2.getD t []).getD i []).getD j false = true := by
  rw [enum_to_bool] at h1 h2
  rcases hf1 : S1.find? fun c => !enumeration.contains c with _ | c1
  · rcases hf2 : S2.find? fun c => !enumeration.contains c with _ | c2
    · rw [hf1] at h1
      rw [hf2] at h2
      simp only [Except.ok.injEq] at h1 h2
      subst h1
      subst h2
      rw [enumMask_getD S1 qual t i j hj, enumMask_getD S2 qual t i j hj]
      intro hmem
      have : ((qual.getD t []).getD i []).getD j "" ∈ S1 := by
        simpa [List.contains] using hmem
      simpa [List.contains] using hsub _ this
    · rw [hf2] at h2
      exact absurd h2 (by simp)
  · rw [hf1] at h1
    exact absurd h1 (by simp)

/-- C8, witness: S₁ = {water} ⊆ S₂ = {water, cloud} over a 1×1×1 quality
cube holding "water": the S₁-mask is true there, hence so is the S₂-mask. -/
theorem C8_maskMonotone_witness :
    (([[[true]]].getD 0 []).getD 0 []).getD 0 false = true :=
  C8_maskMonotone ["water", "cloud"] [[["water"]]] ["water"] ["water", "cloud"]
    [[[true]]] [[[true]]] (by decide) rfl rfl 0 0 0 (by decide) (by decide)

/-- `getD` of a function mapped over `List.range`, inside the bounds. -/
theorem getD_range_map {β : Type _} (f : Nat → β) (n i : Nat) (d : β) (hi : i < n) :
    ((List.range n).map f).getD i d = f i := by
  rw [List.getD_eq_getElem _ _ (by simpa using hi), List.getElem_map, List.getElem_range]

/-- C5: VectorRasterMask raises `EmptyGeometryError` on an empty polygon set
rather than returning a mask; on a non-empty set it returns a boolean mask
with the grid shape, true at exactly the pixels whose center lies inside
some polygon (the adopted rasterization rule). -/
theorem C5_vectorRasterMask (polys : List Polygon) (g : GridGeom) :
    (polys = [] → rasterize polys g = Except.error GeomError.emptyGeometryError) ∧
    (polys ≠ [] → ∃ m, rasterize polys g = Except.ok m ∧
      m.length = g.height ∧ (∀ row ∈ m, row.length = g.width) ∧
      ∀ i j, i < g.height → j < g.width →
        (m.getD i []).getD j false =
          (polys.any fun p =>
            pointInPoly p (pixelCenter g i j).1 (pixelCenter g i j).2)) := by
  constructor
  · rintro rfl
    rw [rasterize]
    rfl
  · intro h
    have hne : polys.isEmpty = false := by
      simpa [List.isEmpty_iff] using h
    refine ⟨_, by rw [rasterize, hne]; rfl, by simp, ?_, ?_⟩
    · intro row hrow
      rcases List.mem_map.mp hrow with ⟨i, _, rfl⟩
      simp
    · intro i j hi hj
      rw [getD_range_map _ g.height i [] hi, getD_range_map _ g.width j false hj]

/-- C5, witness: the empty polygon set raises `EmptyGeometryError`; the
square over the top-left quadrant of the 4×4 grid yields a mask of height 4
whose (0,0) entry is the center-containment test. -/
theorem C5_vectorRasterMask_witness :
    rasterize ([] : List Polygon) exampleGrid = Except.error GeomError.emptyGeometryError ∧
    (∃ m, rasterize [examplePoly] exampleGrid = Except.ok m ∧
      m.length = exampleGrid.height ∧
      (m.getD 0 []).getD 0 false =
        ([examplePoly].any fun p =>
          pointInPoly p (pixelCenter exampleGrid 0 0).1 (pixelCenter exampleGrid 0 0).2)) := by
  refine ⟨(C5_vectorRasterMask [] exampleGrid).1 rfl, ?_⟩
  rcases (C5_vectorRasterMask [examplePoly] exampleGrid).2 (List.cons_ne_nil _ _) with
    ⟨m, hm, hlen, _, hpt⟩
  exact ⟨m, hm, hlen, hpt 0 0 (by decide) (by decide)⟩

/-- C6: the centered rolling median preserves the series length, each
centered window holds exactly the in-bounds slice around its position
(boundary windows are clipped, not dropped), each output is the median of
the non-missing samples of its window when at least `m` are present and NaN
otherwise; and on the series [1, NaN, 3] with window 3, min_periods 1 the
output is [1, 2, 3]. -/
theorem C6_rollingSmoothing (xs : List RVal) (w m : Nat) (hw : w % 2 = 1)
    (hm : 1 ≤ m) (i : Nat) (hi : i < xs.length) :
    (rollingMedian xs w m).length = xs.length ∧
    (windowAt xs w i).length = min (i + w / 2 + 1) xs.length - (i - w / 2) ∧
    (∀ k, k < (windowAt xs w i).length →
      (windowAt xs w i).getD k RVal.nan = xs.getD (i - w / 2 + k) RVal.nan) ∧
    (rollingMedian xs w m).getD i RVal.nan =
      (if m ≤ (nonMissing (windowAt xs w i)).length
       then RVal.fin (medianQ (nonMissing (windowAt xs w i)))
       else RVal.nan) ∧
    rollingMedian [RVal.fin 1, RVal.nan, RVal.fin 3] 3 1 =
      [RVal.fin 1, RVal.fin 2, RVal.fin 3] := by
  refine ⟨by simp [rollingMedian], by simp [windowAt, Nat.sub_min_sub_right], ?_, ?_, ?_⟩
  · intro k hk
    have hlen : (windowAt xs w i).length =
        min (i + w / 2 + 1) xs.length - (i - w / 2) := by
      simp [windowAt, Nat.sub_min_sub_right]
    have hk2 : i - w / 2 + k < xs.length := by
      have h1 : i - w / 2 + k < min (i + w / 2 + 1) xs.length := by
        omega
      omega
    have hk3 : i - w / 2 + k < (xs.take (i + w / 2 + 1)).length := by
      simp only [List.length_take]
      omega
    rw [windowAt, List.getD_eq_getElem _ _ (by simpa [windowAt] using hk),
      List.getD_eq_getElem _ _ hk2]
    simp
  · rw [rollingMedian, getD_range_map _ xs.length i _ hi, Nat.max_eq_left hm]
  · decide

/-- C6, witness: the scenario series — rolling median of [1, NaN, 3] with a
centered window of 3 and min_periods 1 is [1, 2, 3]. -/
theorem C6_rollingSmoothing_witness :
    rollingMedian [RVal.fin 1, RVal.nan, RVal.fin 3] 3 1 =
      [RVal.fin 1, RVal.fin 2, RVal.fin 3] :=
  (C6_rollingSmoothing [RVal.fin 1, RVal.nan, RVal.fin 3] 3 1 (by decide) (by decide)
    1 (by decide)).2.2.2.2

/-! ### Clear-percentage helper lemmas -/

/-- Before the guard, with a positive valid count the percentage is the
finite value `100 × clear / valid`. -/
theorem percentage_clear_raw_eq (c v : Nat) (hv : 0 < v) :
    percentage_clear_raw c v = RVal.fin (100 * (c : ℚ) / (v : ℚ)) := by
  have hv0 : ((v : ℚ)) ≠ 0 := Nat.cast_ne_zero.mpr (Nat.pos_iff_ne_zero.mp hv)
  rw [percentage_clear_raw, RVal.mul_fin, RVal.div_fin _ _ hv0]

/-- With a zero valid count the guarded percentage is NaN: 0/0 is NaN and
`c/0 = +∞` fails the `≤ 100` guard. -/
theorem percentage_clear_vzero (c : Nat) : percentage_clear c 0 = RVal.nan := by
  rcases Nat.eq_zero_or_pos c with rfl | hc
  · simp [percentage_clear, percentage_clear_raw, RVal.mul_fin, RVal.div, whereRV, RVal.rLe]
  · have hc' : (0 : ℚ) < 100 * (c : ℚ) := by
      have : (0 : ℚ) < c := by exact_mod_cast hc
      positivity
    simp [percentage_clear, percentage_clear_raw, RVal.mul_fin, RVal.div, whereRV, RVal.rLe,
      ne_of_gt hc', hc']

/-- With `0 < valid` and `clear ≤ valid` the guard passes and the value is
`100 × clear / valid`. -/
theorem percentage_clear_pos (c v : Nat) (hv : 0 < v) (hcv : c ≤ v) :
    percentage_clear c v = RVal.fin (100 * (c : ℚ) / (v : ℚ)) := by
  have hv' : (0 : ℚ) < v := by exact_mod_cast hv
  have hle : 100 * (c : ℚ) / v ≤ 100 := by
    rw [div_le_iff₀ hv']
    have hc' : (c : ℚ) ≤ v := by exact_mod_cast hcv
    nlinarith
  rw [percentage_clear, percentage_clear_raw_eq c v hv, RVal.rLe_fin, whereRV,
    decide_eq_true hle]
  rfl

/-- With `valid < clear` the raw percentage exceeds 100 and the guard
discards it to NaN. -/
theorem percentage_clear_over (c v : Nat) (hv : 0 < v) (hvc : v < c) :
    percentage_clear c v = RVal.nan := by
  have hv' : (0 : ℚ) < v := by exact_mod_cast hv
  have hgt : 100 < 100 * (c : ℚ) / v := by
    rw [lt_div_iff₀ hv']
    have hc' : (v : ℚ) < c := by exact_mod_cast hvc
    nlinarith
  rw [percentage_clear, percentage_clear_raw_eq c v hv, RVal.rLe_fin, whereRV,
    decide_eq_false (not_le.mpr hgt)]
  rfl

/-- C7, counterexample: at a pixel whose clear mask is true at 2 time steps
but whose valid mask is true at only 1, the code's guarded percentage is NaN,
not the claimed fraction clear/valid = 2 (percentage 200). -/
theorem C7_counterexample :
    countTrue [true, true] = 2 ∧
    countTrue [true, false] = 1 ∧
    percentageClearPixel [true, true] [true, false] = RVal.nan ∧
    RVal.nan ≠ RVal.fin 200 := by
  refine ⟨by decide, by decide, by decide, by decide⟩

/-- C7 (amended): the per-pixel clear percentage equals
`100 × clear_count / valid_count` whenever `valid_count > 0` and
`clear_count ≤ valid_count`; it is NaN — not an exception, not 0 and not
infinity — whenever `valid_count = 0`, and also whenever
`clear_count > valid_count` (the `≤ 100` guard discards such values). -/
theorem C7_percentageClear (c v : Nat) :
    (v = 0 → percentage_clear c v = RVal.nan) ∧
    (0 < v → c ≤ v → percentage_clear c v = RVal.fin (100 * (c : ℚ) / (v : ℚ))) ∧
    (v < c → percentage_clear c v = RVal.nan) := by
  refine ⟨?_, percentage_clear_pos c v, ?_⟩
  · rintro rfl
    exact percentage_clear_vzero c
  · intro hvc
    rcases Nat.eq_zero_or_pos v with rfl | hv
    · exact percentage_clear_vzero c
    · exact percentage_clear_over c v hv hvc

/-- C7, witness: clear 1 of valid 2 gives 50%; valid 0 gives NaN; clear 3 of
valid 2 gives NaN. -/
theorem C7_percentageClear_witness :
    percentage_clear 1 2 = RVal.fin (100 * (1 : ℚ) / (2 : ℚ)) ∧
    percentage_clear 5 0 = RVal.nan ∧
    percentage_clear 3 2 = RVal.nan :=
  ⟨(C7_percentageClear 1 2).2.1 (by decide) (by decide),
   (C7_percentageClear 5 0).1 rfl,
   (C7_percentageClear 3 2).2.2 (by decide)⟩

/-- C10: after the `≤ 100` guard, every element of the clear-percentage
image is NaN or a finite value in [0, 100]; in particular the +∞ arising
from a positive clear count over a zero valid count is replaced by NaN. -/
theorem C10_percentageClearRange (c v : Nat) :
    (percentage_clear c v = RVal.nan ∨
      ∃ q : ℚ, percentage_clear c v = RVal.fin q ∧ 0 ≤ q ∧ q ≤ 100) ∧
    (percentage_clear_raw c v = RVal.inf → percentage_clear c v = RVal.nan) := by
  constructor
  · rcases Nat.eq_zero_or_pos v with rfl | hv
    · exact Or.inl (percentage_clear_vzero c)
    · rcases le_or_lt c v with hcv | hvc
      · refine Or.inr ⟨100 * (c : ℚ) / (v : ℚ), percentage_clear_pos c v hv hcv, ?_, ?_⟩
        · positivity
        · have hv' : (0 : ℚ) < v := by exact_mod_cast hv
          have hc' : (c : ℚ) ≤ v := by exact_mod_cast hcv
          rw [div_le_iff₀ hv']
          nlinarith
      · exact Or.inl (percentage_clear_over c v hv hvc)
  · intro hraw
    rcases Nat.eq_zero_or_pos v with rfl | hv
    · exact percentage_clear_vzero c
    · rw [percentage_clear_raw_eq c v hv] at hraw
      exact absurd hraw (by simp)

/-- C10, witness: clear 1 over valid 0 — the raw value is +∞ and the guarded
value is NaN. -/
theorem C10_percentageClearRange_witness :
    percentage_clear 1 0 = RVal.nan :=
  (C10_percentageClearRange 1 0).2 (by decide)

/-! ### Water-selection helper lemmas -/

/-- A value strictly greater than 0 under the IEEE comparison is not NaN. -/
theorem not_isNaN_of_rGt (x : RVal) (h : RVal.rGt x (RVal.fin 0) = true) :
    RVal.isNaN x = false := by
  cases x <;> simp_all [RVal.rGt, RVal.rLt, RVal.isNaN]

/-- Counting the non-NaN entries of the water-selected MNDWI image counts
exactly the pixels with MNDWI > 0. -/
theorem watercount_eq (mndwi : List RVal) :
    watercount mndwi = (mndwi.filter fun x => RVal.rGt x (RVal.fin 0)).length := by
  induction mndwi with
  | nil => rfl
  | cons x xs ih =>
    rcases hx : RVal.rGt x (RVal.fin 0) with _ | _
    · simpa [watercount, waterMNDWI, countRV, whereRV, hx, List.filter_cons, RVal.isNaN]
        using ih
    · simpa [watercount, waterMNDWI, countRV, whereRV, hx, List.filter_cons,
        not_isNaN_of_rGt x hx] using ih

/-- The non-NaN entries of the water-selected NDCI image are the non-NaN
entries of the NDCI values at pixels with MNDWI > 0. -/
theorem waterNDCI_filter :
    ∀ (ms ns : List RVal),
      (waterNDCI ms ns).filter (fun x => !RVal.isNaN x) =
        (((ms.zip ns).filter fun p => RVal.rGt p.1 (RVal.fin 0)).map Prod.snd).filter
          (fun x => !RVal.isNaN x)
  | [], ns => by cases ns <;> rfl
  | _ :: _, [] => rfl
  | m :: ms, n :: ns => by
    rcases hm : RVal.rGt m (RVal.fin 0) with _ | _
    · simpa [waterNDCI, whereRV, hm, List.filter_cons, RVal.isNaN]
        using waterNDCI_filter ms ns
    · rcases hn : RVal.isNaN n with _ | _ <;>
        simpa [waterNDCI, whereRV, hm, hn, List.filter_cons]
          using waterNDCI_filter ms ns

/-- `average_ndci` is the NaN-skipping mean of the NDCI values at pixels
with MNDWI > 0. -/
theorem average_ndci_eq (ms ns : List RVal) :
    average_ndci ms ns =
      nanmean (((ms.zip ns).filter fun p => RVal.rGt p.1 (RVal.fin 0)).map Prod.snd) := by
  rw [average_ndci, nanmean, nanmean, waterNDCI_filter ms ns]

/-- C9: a pixel contributes to the per-time-step water count iff its MNDWI
is strictly greater than 0; the average NDCI is the NaN-skipping mean of the
NDCI values over exactly those pixels; and a NaN MNDWI never selects a pixel
(the NaN comparison is false). -/
theorem C9_waterSelection (mndwi ndci : List RVal) :
    watercount mndwi = (mndwi.filter fun x => RVal.rGt x (RVal.fin 0)).length ∧
    average_ndci mndwi ndci =
      nanmean (((mndwi.zip ndci).filter fun p => RVal.rGt p.1 (RVal.fin 0)).map Prod.snd) ∧
    (∀ x ∈ mndwi, RVal.isNaN x = true → RVal.rGt x (RVal.fin 0) = false) := by
  refine ⟨watercount_eq mndwi, average_ndci_eq mndwi ndci, ?_⟩
  intro x _ hx
  rw [(RVal.isNaN_iff x).mp hx]
  rfl

/-- C9, witness: on the pixel list with MNDWI values [1, NaN, −1, 1/2] only
the two positive pixels are counted, and the average NDCI is the mean of
their NDCI values. -/
theorem C9_waterSelection_witness :
    watercount [RVal.fin 1, RVal.nan, RVal.fin (-1), RVal.fin (mkRat 1 2)] = 2 ∧
    average_ndci [RVal.fin 1, RVal.nan, RVal.fin (-1), RVal.fin (mkRat 1 2)]
        [RVal.fin 2, RVal.fin 5, RVal.fin 7, RVal.fin 4] = RVal.fin 3 := by
  have h := C9_waterSelection [RVal.fin 1, RVal.nan, RVal.fin (-1), RVal.fin (mkRat 1 2)]
    [RVal.fin 2, RVal.fin 5, RVal.fin 7, RVal.fin 4]
  refine ⟨?_, ?_⟩
  · rw [h.1]
    decide
  · rw [h.2.1]
    decide

/-! ### TimeStepFilter helper lemmas -/

/-- Boolean selection against the mapped predicate of the list itself is
`filter`: the retained elements are exactly those satisfying the predicate,
in their original order. -/
theorem sel_filter {α : Type _} (p : α → Bool) :
    ∀ xs : List α, sel xs (xs.map p) = xs.filter p
  | [] => rfl
  | x :: xs => by
    rcases hp : p x with _ | _ <;>
      simp [sel, hp, List.filter_cons, sel_filter p xs]

/-- Selecting with one keep-vector commutes with pairing two axes: the same
time steps are dropped from both arrays. -/
theorem sel_zip {α β : Type _} :
    ∀ (xs : List α) (ys : List β) (bs : List Bool),
      sel (xs.zip ys) bs = (sel xs bs).zip (sel ys bs)
  | [], ys, bs => by cases ys <;> cases bs <;> simp [sel]
  | _ :: _, [], bs => by cases bs <;> simp [sel]
  | _ :: _, _ :: _, [] => by simp [sel]
  | x :: xs, y :: ys, b :: bs => by
    cases b <;> simpa [sel] using sel_zip xs ys bs

/-- The keep-vector is the per-time-step good-fraction threshold test. -/
theorem keepVec_eq_map (mask : List (List (List Bool))) (h w : Nat) (τ : ℚ)
    (hhw : 0 < h * w) :
    keepVec mask h w τ =
      mask.map fun img =>
        decide (τ ≤ (countTrue2 img : ℚ) / ((h * w : Nat) : ℚ)) := by
  have hhw' : (((h * w : Nat) : ℚ)) ≠ 0 :=
    Nat.cast_ne_zero.mpr (Nat.pos_iff_ne_zero.mp hhw)
  rw [keepVec, data_perc, List.map_map]
  refine List.map_congr_left ?_
  intro img _
  show RVal.rGe
    (RVal.div (RVal.fin (countTrue2 img)) (RVal.fin ((h * w : Nat) : ℚ))) (RVal.fin τ) = _
  rw [RVal.div_fin _ _ hhw', RVal.rGe_fin]

/-- The time index list is its own mapped image under `mask.getD`. -/
theorem range_map_getD {α : Type _} (xs : List α) (d : α) (f : α → Bool) :
    xs.map f = (List.range xs.length).map fun t => f (xs.getD t d) := by
  refine List.ext_getElem (by simp) ?_
  intro i h1 h2
  rw [List.getElem_map, List.getElem_map, List.getElem_range,
    List.getD_eq_getElem _ _ (by simpa using h1)]

/-- C1: TimeStepFilter computes `good_fraction(t)` as the true-pixel count of
the quality mask at time t over the total pixel count, retains exactly the
time steps with `good_fraction ≥ τ` in their original order, one keep-vector
restricts any two time-aligned arrays identically, and the 4-time-step
scenario with fractions 0.9, 0.1, 0.9, 0.1 under τ = 1/2 retains exactly
time steps [0, 2]. -/
theorem C1_timeStepFilter (mask : List (List (List Bool))) (h w : Nat) (τ : ℚ)
    (hhw : 0 < h * w) (hτ0 : 0 ≤ τ) (hτ1 : τ ≤ 1) :
    (∀ t, t < mask.length →
      (data_perc mask h w).getD t RVal.nan =
        RVal.fin ((countTrue2 (mask.getD t []) : ℚ) / ((h * w : Nat) : ℚ))) ∧
    (∀ t, t < mask.length →
      (keepVec mask h w τ).getD t false =
        decide (τ ≤ (countTrue2 (mask.getD t []) : ℚ) / ((h * w : Nat) : ℚ))) ∧
    sel (List.range mask.length) (keepVec mask h w τ) =
      (List.range mask.length).filter
        (fun t => decide (τ ≤ (countTrue2 (mask.getD t []) : ℚ) / ((h * w : Nat) : ℚ))) ∧
    (∀ (α β : Type) (data : List α) (qm : List β) (ks : List Bool),
      sel (data.zip qm) ks = (sel data ks).zip (sel qm ks)) ∧
    sel (List.range 4) (keepVec exampleMask4 1 10 (mkRat 1 2)) = [0, 2] := by
  have hhw' : (((h * w : Nat) : ℚ)) ≠ 0 :=
    Nat.cast_ne_zero.mpr (Nat.pos_iff_ne_zero.mp hhw)
  refine ⟨?_, ?_, ?_, fun α β data qm ks => sel_zip data qm ks, by decide⟩
  · intro t ht
    rw [data_perc, getD_map_bounded _ [] RVal.nan mask t ht, RVal.div_fin _ _ hhw']
  · intro t ht
    rw [keepVec_eq_map mask h w τ hhw, getD_map_bounded _ [] false mask t ht]
  · rw [keepVec_eq_map mask h w τ hhw,
      range_map_getD mask [] (fun img => decide (τ ≤ (countTrue2 img : ℚ) / ((h * w : Nat) : ℚ))),
      sel_filter]

/-- C1, witness: the 4-time-step scenario (1×10 grid, good fractions 0.9,
0.1, 0.9, 0.1, τ = 1/2): the fraction at step 0 is 9/10, the keep-vector
entry at step 1 is false, and the retained steps are [0, 2]. -/
theorem C1_timeStepFilter_witness :
    (data_perc exampleMask4 1 10).getD 0 RVal.nan =
      RVal.fin ((countTrue2 (exampleMask4.getD 0 []) : ℚ) / ((1 * 10 : Nat) : ℚ)) ∧
    (keepVec exampleMask4 1 10 (mkRat 1 2)).getD 1 false =
      decide ((mkRat 1 2) ≤ (countTrue2 (exampleMask4.getD 1 []) : ℚ) / ((1 * 10 : Nat) : ℚ)) ∧
    sel (List.range 4) (keepVec exampleMask4 1 10 (mkRat 1 2)) = [0, 2] := by
  have h := C1_timeStepFilter exampleMask4 1 10 (mkRat 1 2) (by decide) (by decide) (by decide)
  exact ⟨h.1 0 (by decide), h.2.1 1 (by decide), h.2.2.2.2⟩

end Datacube
